import Mathlib

/-!
Verification development for `src/model.py` of the acre-cascade repository.

The file `src/model.py` defines `SegModel`, a Lightning semantic-segmentation
module, and its concrete subclass `UNetSegModel`.  This development gives a
shallow embedding of the module's step logic and proves the specification's
testable properties against it.

Embedding conventions:

* Tensors are modelled pixel-major over exact rationals: one sample of network
  output is a list over pixels of per-class score vectors, i.e. the spatial
  H and W dimensions are flattened into a single pixel dimension.  Every
  operation the claims mention (argmax over the class dimension, per-pixel
  counting for IoU, cross-entropy terms) is pointwise in the pixels, so the
  2-D layout is irrelevant to them.  Shape behaviour of the network itself
  (claim about `forward`) is modelled separately at the shape level.
* dtype casts (`.float()`, `.long()`) are value-preserving in the exact model.
* The network `self.net` is an arbitrary function parameter `net` mapping the
  batch of images to the batch of per-pixel class scores.
* `self.log` and `self.logger.experiment.log` are modelled as appending
  entries to lists held in the module state; the wandb image payloads logged
  every 50 training batches / on the first validation batch carry no data the
  claims mention and are not modelled.
* `torch.Tensor.cpu`, `.detach` and `.numpy` are value-preserving.
-/

namespace AcreCascade

/-- Pixel-major image sample: per-pixel channel values. -/
abbrev Img : Type := List (List ℚ)

/-- Pixel-major network-output sample: per-pixel class-score vectors. -/
abbrev Score : Type := List (List ℚ)

/-- Segmentation-mask sample: per-pixel class index. -/
abbrev Mask : Type := List ℕ

/-- Training / validation batch (`TrainBatch` from `src.data`): an image
tensor and a mask tensor, each a list of samples. -/
structure TrainBatch where
  image : List Img
  mask : List Mask
  deriving DecidableEq

/-- Test batch (`TestBatch` from `src.data`): an image tensor plus
filename / team / crop metadata lists, one entry per sample. -/
structure TestBatch where
  image : List Img
  filename : List String
  team : List String
  crop : List String
  deriving DecidableEq

/-- Index of the first maximal entry of a score vector, modelling
`torch.argmax` along the class dimension at one pixel. -/
def argmaxIdx : List ℚ → ℕ
  | [] => 0
  | x :: xs =>
    let r := argmaxIdx xs
    if xs.getD r x > x then r + 1 else 0

/-- Per-pixel argmax of a sample of class scores: models
`out.argmax(dim=0)` on a (C, H, W) sample, pixel-major. -/
def pixelArgmaxMap (sc : Score) : Mask := sc.map argmaxIdx

/-- True-positive count of class `c` between a predicted and a target mask. -/
def countTP (pred target : Mask) (c : ℕ) : ℕ :=
  ((pred.zip target).filter (fun p => p.1 = c ∧ p.2 = c)).length

/-- False-positive count of class `c`. -/
def countFP (pred target : Mask) (c : ℕ) : ℕ :=
  ((pred.zip target).filter (fun p => p.1 = c ∧ p.2 ≠ c)).length

/-- False-negative count of class `c`. -/
def countFN (pred target : Mask) (c : ℕ) : ℕ :=
  ((pred.zip target).filter (fun p => p.1 ≠ c ∧ p.2 = c)).length

/-- Number of classes inferred by the metric:
`max(pred.max(), target.max()) + 1`. -/
def numClassesOf (pred target : Mask) : ℕ :=
  max (pred.foldr max 0) (target.foldr max 0) + 1

/-- Per-class IoU score `tp / (tp + fp + fn)`, with the absent-class score 0
used when the denominator vanishes. -/
def classScore (pred target : Mask) (c : ℕ) : ℚ :=
  let d := countTP pred target c + countFP pred target c + countFN pred target c
  if d = 0 then 0 else (countTP pred target c : ℚ) / (d : ℚ)

/-- Model of `pytorch_lightning.metrics.functional.iou` (an external library
function) with default arguments as called by `validation_step`: per-class
IoU from the confusion counts, the class `ignore_index` dropped from the
average, absent classes scored 0, and elementwise-mean reduction. -/
def iou (pred target : Mask) (ignore_index : ℕ) : ℚ :=
  let ncl := numClassesOf pred target
  let classes := (List.range ncl).filter (fun c => c ≠ ignore_index)
  ((classes.map (classScore pred target)).sum) / (classes.length : ℚ)

/-- Value logged under a key by the module: either a loss value (of the
loss function's value type `L`) or a rational scalar such as the IoU. -/
inductive LogEntry (L : Type) where
  | ofLoss (x : L)
  | ofQ (q : ℚ)

/-- Mask payload stored in a submission record: `.squeeze()` of the
predicted (N, H, W) masks either drops a size-one sample dimension or
leaves the stack. -/
inductive MaskData where
  | one (m : Mask)
  | many (ms : List Mask)
  deriving DecidableEq

/-- Field value of the dictionary produced by `asdict` on a submission. -/
inductive FieldVal where
  | str (s : String)
  | arr (m : MaskData)
  deriving DecidableEq

/-- Record stored as a value in `self.submission`: a field-name-keyed
dictionary, modelled as an association list. -/
abbrev SubRec : Type := List (String × FieldVal)

/-- The submission mapping: a dictionary from filename to record, modelled
as an association list. -/
abbrev SubmissionMap : Type := List (String × SubRec)

/-- Mutable state of the module that the step callbacks touch: the scalar
values passed to `self.log`, the scalar dictionaries passed to
`self.logger.experiment.log`, and `self.submission`. -/
structure ModelState (L : Type) where
  logged : List (String × LogEntry L)
  experimentLogged : List (List (String × LogEntry L))
  submission : Option SubmissionMap

/-- State set up by `SegModel.__init__`: nothing logged and
`self.submission = None` (line 44). -/
def initState (L : Type) : ModelState L := ⟨[], [], none⟩

/-- Model of `torch.Tensor.float`: a value-preserving dtype cast. -/
def floatCast (t : List Img) : List Img := t

/-- Model of `torch.Tensor.long`: a value-preserving dtype cast. -/
def longCast (t : List Mask) : List Mask := t

/-- Model of `SegModel.training_step` (lines 62-91): forward pass on the
float-cast image, loss on the long-cast mask, `self.log("train_loss", ...)`,
and, when a logger is attached, an experiment log of the training loss.
Returns the updated state, the batch object after the call, and the value
the method returns. -/
def training_step {L : Type} (loss_fn : List Score → List Mask → L)
    (net : List Img → List Score) (hasLogger : Bool)
    (s : ModelState L) (batch : TrainBatch) (_batch_index : ℕ) :
    ModelState L × TrainBatch × L :=
  let img := floatCast batch.image
  let mask := longCast batch.mask
  let out := net img
  let loss := loss_fn out mask
  let s1 : ModelState L :=
    { s with logged := s.logged ++ [("train_loss", LogEntry.ofLoss loss)] }
  let s2 : ModelState L :=
    if hasLogger then
      { s1 with experimentLogged :=
          s1.experimentLogged ++ [[("training/loss", LogEntry.ofLoss loss)]] }
    else s1
  (s2, batch, loss)

/-- The IoU score accumulated by `validation_step` (lines 100-103): the sum
over `zip(mask, out)` of the per-sample IoU of the pixel argmax against the
ground truth with `ignore_index=0`, divided by `len(out)`. -/
def valIouScore (net : List Img → List Score) (batch : TrainBatch) : ℚ :=
  ((batch.mask.zip (net (floatCast batch.image))).map
      (fun p => iou (pixelArgmaxMap p.2) p.1 0)).sum
    / (((net (floatCast batch.image)).length : ℚ))

/-- Model of `SegModel.validation_step` (lines 94-129): the same forward
pass and loss as `training_step`, plus the IoU score; logs `val_loss` and
`iou`, and, when a logger is attached, an experiment log of both. -/
def validation_step {L : Type} (loss_fn : List Score → List Mask → L)
    (net : List Img → List Score) (hasLogger : Bool)
    (s : ModelState L) (batch : TrainBatch) (_batch_idx : ℕ) :
    ModelState L × TrainBatch × L :=
  let img := floatCast batch.image
  let mask := longCast batch.mask
  let out := net img
  let loss := loss_fn out mask
  let iou_score := valIouScore net batch
  let s1 : ModelState L :=
    { s with logged := s.logged ++
        [("val_loss", LogEntry.ofLoss loss), ("iou", LogEntry.ofQ iou_score)] }
  let s2 : ModelState L :=
    if hasLogger then
      { s1 with experimentLogged := s1.experimentLogged ++
          [[("validation/loss", LogEntry.ofLoss loss),
            ("validation/iou", LogEntry.ofQ iou_score)]] }
    else s1
  (s2, batch, loss)

/-- Modelled from the spec: the `Submission` dataclass of
`src/submission_generation.py` is not included under `src/`; per the spec's
data model it is the "per-test-sample result (filename, team, crop,
predicted mask)". -/
structure Submission where
  filename : String
  team : String
  crop : String
  mask : MaskData
  deriving DecidableEq

/-- Modelled from the spec: `sample_to_submission` of
`src/submission_generation.py` is not included under `src/`; per the spec it
packages one test sample's filename, team, crop and predicted mask into a
`Submission` record. -/
def sample_to_submission (filename team_name crop_name : String)
    (mask : MaskData) : Submission :=
  ⟨filename, team_name, crop_name, mask⟩

/-- Model of `dataclasses.asdict` on a `Submission`: the field-name-keyed
dictionary of its fields. -/
def Submission.asdict (s : Submission) : SubRec :=
  [("filename", FieldVal.str s.filename), ("team", FieldVal.str s.team),
   ("crop", FieldVal.str s.crop), ("mask", FieldVal.arr s.mask)]

/-- Model of `dict.pop("filename")`: returns the value stored under
"filename" (which is a string for a submission dictionary) together with
the dictionary with that key removed; `none` models the `KeyError` (or a
non-string key) case. -/
def pop_filename (d : SubRec) : Option (String × SubRec) :=
  match d.lookup "filename" with
  | some (FieldVal.str s) => some (s, d.filter (fun p => p.1 ≠ "filename"))
  | _ => none

/-- Model of `torch.Tensor.squeeze` on the stacked (N, H, W) predicted
masks: a size-one sample dimension is dropped, otherwise the stack is kept.
(The H and W dimensions are flattened in this embedding, so only the sample
dimension's squeeze is visible.) -/
def squeeze (ms : List Mask) : MaskData :=
  match ms with
  | [m] => MaskData.one m
  | _ => MaskData.many ms

/-- Model of `SegModel.test_step` (lines 132-142): the predicted mask is the
class-dimension argmax of the network output on the batch image; the first
sample's filename / team / crop metadata are packaged with the squeezed mask
into a submission record, whose "filename" entry is popped off and used as
the single key of the returned dictionary.  Returns the batch object after
the call together with the returned dictionary; `none` models the Python
`IndexError` on an empty metadata list. -/
def test_step (net : List Img → List Score) (batch : TestBatch) :
    TestBatch × Option (List (String × SubRec)) :=
  match batch.filename, batch.team, batch.crop with
  | f :: _, t :: _, c :: _ =>
    let predicted_mask := (net batch.image).map pixelArgmaxMap
    let submission_i := sample_to_submission f t c (squeeze predicted_mask)
    let submission_dict_i := Submission.asdict submission_i
    match pop_filename submission_dict_i with
    | some kv => (batch, some [(kv.1, kv.2)])
    | none => (batch, none)
  | _, _, _ => (batch, none)

/-- One insertion step of `dict(ChainMap(*outputs))`: a key / value pair of
a later map is added only when the key is not yet bound, so the earliest
binding of each key wins, exactly as `ChainMap.__getitem__` searches the
maps from first to last. -/
def chainMapInsert (acc : SubmissionMap) (kv : String × SubRec) :
    SubmissionMap :=
  if acc.any (fun p => p.1 == kv.1) then acc else acc ++ [kv]

/-- Model of `dict(ChainMap(*outputs))` from `test_epoch_end` (line 147):
the association list binding each key that occurs in any output to the value
it has in the earliest output containing it. -/
def dictChainMap (outputs : List SubmissionMap) : SubmissionMap :=
  outputs.foldl (fun acc m => m.foldl chainMapInsert acc) []

/-- Model of `SegModel.test_epoch_end` (lines 144-147): collates the list of
dictionaries produced by `test_step` into a single dictionary and stores it
in `self.submission`. -/
def test_epoch_end {L : Type} (s : ModelState L)
    (outputs : List SubmissionMap) : ModelState L :=
  { s with submission := some (dictChainMap outputs) }

/-- One full test pass: `test_step` on every batch in order (propagating the
Python error case), followed by `test_epoch_end` on the collected outputs. -/
def testPass {L : Type} (net : List Img → List Score) (s : ModelState L)
    (batches : List TestBatch) : Option (ModelState L) :=
  (batches.mapM (fun b => (test_step net b).2)).map (test_epoch_end s)

/-- A training-loop step that is not part of a test pass: a call to
`training_step` or to `validation_step`. -/
inductive FitStep where
  | train (b : TrainBatch) (i : ℕ)
  | val (b : TrainBatch) (i : ℕ)

/-- Runs a sequence of training / validation steps from a state, threading
the module state through the calls. -/
def runFit {L : Type} (loss_fn : List Score → List Mask → L)
    (net : List Img → List Score) (hasLogger : Bool) :
    ModelState L → List FitStep → ModelState L
  | s, [] => s
  | s, FitStep.train b i :: rest =>
    runFit loss_fn net hasLogger (training_step loss_fn net hasLogger s b i).1 rest
  | s, FitStep.val b i :: rest =>
    runFit loss_fn net hasLogger (validation_step loss_fn net hasLogger s b i).1 rest

/-! Shape-level model of the external
`pl_examples.domain_templates.unet.UNet` network returned by
`UNetSegModel.build` (lines 169-176).  `build` passes only `num_classes`,
`num_layers`, `features_start` and `bilinear`, so the input-channel count is
the library default 3.  The architecture: a `DoubleConv(3, features_start)`,
then `num_layers - 1` blocks `Down(f, 2f)` (max-pool of stride 2 followed by
a double conv), then `num_layers - 1` blocks `Up(f, f / 2)` (an upsampling
that doubles the spatial size and halves the channels — identically shaped
for the transposed-conv and the bilinear variant — followed by padding to
the skip connection's spatial size, channel concatenation with the skip, and
a double conv), and a final 1x1 conv to `num_classes` channels.  A shape is
mapped to `none` exactly when the corresponding torch layer would raise
(channel mismatch, or a spatial dimension too small for the kernel). -/

/-- Shape (N, C, H, W) of a 4-dimensional tensor. -/
structure Shape4 where
  n : ℕ
  c : ℕ
  h : ℕ
  w : ℕ
  deriving DecidableEq

/-- Shape semantics of `nn.Conv2d(cin, cout, kernel_size=k, padding=p)`:
requires the declared input-channel count and a spatial size the kernel
fits into; output spatial size is `h + 2p - k + 1`. -/
def conv2dShape (cin cout k p : ℕ) (s : Shape4) : Option Shape4 :=
  if s.c = cin ∧ 1 ≤ s.h ∧ 1 ≤ s.w ∧ k ≤ s.h + 2 * p ∧ k ≤ s.w + 2 * p then
    some ⟨s.n, cout, s.h + 2 * p + 1 - k, s.w + 2 * p + 1 - k⟩
  else none

/-- Shape semantics of the UNet `DoubleConv` block: two 3x3 convs with
padding 1, which preserve the spatial size. -/
def doubleConvShape (cin cout : ℕ) (s : Shape4) : Option Shape4 :=
  (conv2dShape cin cout 3 1 s).bind (conv2dShape cout cout 3 1)

/-- Shape semantics of `nn.MaxPool2d(kernel_size=2, stride=2)`: halves the
spatial size (floor), requiring it to be at least 2. -/
def maxPool2Shape (s : Shape4) : Option Shape4 :=
  if 2 ≤ s.h ∧ 2 ≤ s.w then some ⟨s.n, s.c, s.h / 2, s.w / 2⟩ else none

/-- Shape semantics of the UNet `Down` block: max-pool then double conv. -/
def downShape (cin cout : ℕ) (s : Shape4) : Option Shape4 :=
  (maxPool2Shape s).bind (doubleConvShape cin cout)

/-- Shape semantics of the upsampling stage of the UNet `Up` block: doubles
the spatial size and halves the channels (both for
`ConvTranspose2d(cin, cin / 2, kernel_size=2, stride=2)` and for the
bilinear `Upsample` followed by a 1x1 conv to `cin / 2` channels). -/
def upsampleShape (cin : ℕ) (s : Shape4) : Option Shape4 :=
  if s.c = cin ∧ 1 ≤ s.h ∧ 1 ≤ s.w then
    some ⟨s.n, cin / 2, 2 * s.h, 2 * s.w⟩
  else none

/-- Shape semantics of the `F.pad` call of the UNet `Up` block: the
(possibly negative, i.e. cropping) padding amounts are computed exactly so
that the result has the skip connection's spatial size. -/
def padToShape (th tw : ℕ) (s : Shape4) : Shape4 := ⟨s.n, s.c, th, tw⟩

/-- Shape semantics of `torch.cat([x2, x1], dim=1)`: channel counts add;
the remaining dimensions must agree. -/
def catChShape (x2 x1 : Shape4) : Option Shape4 :=
  if x2.n = x1.n ∧ x2.h = x1.h ∧ x2.w = x1.w then
    some ⟨x2.n, x2.c + x1.c, x2.h, x2.w⟩
  else none

/-- Shape semantics of the UNet `Up` block applied to the current feature
map `x1` and the skip connection `x2`: upsample `x1`, pad it to `x2`'s
spatial size, concatenate with `x2`, and double-conv to `cout` channels. -/
def upShape (cin cout : ℕ) (x1 x2 : Shape4) : Option Shape4 :=
  (upsampleShape cin x1).bind fun y =>
    (catChShape x2 (padToShape x2.h x2.w y)).bind (doubleConvShape cin cout)

/-- Shape semantics of the UNet down path after the initial double conv:
`k` `Down` blocks that double the feature count each time.  Returns the
final feature map's shape together with the skip connections in the order
the up path consumes them (innermost skip first). -/
def downPath (feats : ℕ) : ℕ → Shape4 → Option (Shape4 × List Shape4)
  | 0, s => some (s, [])
  | k + 1, s =>
    (downShape feats (2 * feats) s).bind fun s2 =>
      (downPath (2 * feats) k s2).map fun r => (r.1, r.2 ++ [s])

/-- Shape semantics of the UNet up path: consumes the skip connections in
order, halving the feature count at every `Up` block. -/
def upPath : ℕ → Shape4 → List Shape4 → Option Shape4
  | _, cur, [] => some cur
  | f, cur, skip :: rest =>
    (upShape f (f / 2) cur skip).bind fun nxt => upPath (f / 2) nxt rest

/-- Shape semantics of the full UNet forward pass, and hence of
`SegModel.forward` (lines 51-53, `self.net(x)`) for the net that
`UNetSegModel.build` constructs: initial `DoubleConv(3, features_start)`,
the down path, the up path, and the final 1x1 conv to `num_classes`
channels. -/
def unetShape (num_classes num_layers features_start : ℕ) (s : Shape4) :
    Option Shape4 :=
  (doubleConvShape 3 features_start s).bind fun x0 =>
    (downPath features_start (num_layers - 1) x0).bind fun r =>
      (upPath (features_start * 2 ^ (num_layers - 1)) r.1 r.2).bind
        (conv2dShape features_start num_classes 1 0)

/-! Real-valued model of the external `torch.nn.CrossEntropyLoss` default
loss function (`loss_fn` default of `SegModel.__init__`): input
(N, C, H, W) class scores and (N, H, W) target class indices, loss
`-log softmax(x)[target]` averaged over every sample-pixel position.  The
exact real-number semantics is used; every value of the model is a real
number, so the finiteness asserted by the spec is inherent to the model,
and the substantive fact is non-negativity. -/

/-- Per-position cross-entropy term
`-log(exp(x_t) / sum_j exp(x_j)) = log(sum_j exp(x_j)) - x_t` for score
vector `scores` and target class `t`. -/
noncomputable def ceTerm (scores : List ℚ) (t : ℕ) : ℝ :=
  Real.log ((scores.map fun x : ℚ => Real.exp (x : ℝ)).sum)
    - ((scores.getD t 0 : ℚ) : ℝ)

/-- All (score-vector, target-class) positions of a batch: samples zipped,
then pixels zipped within each sample. -/
def cePositions (out : List Score) (mask : List Mask) :
    List (List ℚ × ℕ) :=
  (out.zip mask).flatMap fun sm => sm.1.zip sm.2

/-- Model of `nn.CrossEntropyLoss()` with default mean reduction: the
average of the per-position cross-entropy terms. -/
noncomputable def crossEntropyLoss (out : List Score) (mask : List Mask) :
    ℝ :=
  ((cePositions out mask).map fun p => ceTerm p.1 p.2).sum
    / ((cePositions out mask).length : ℝ)

/-! Theorems. -/

theorem pop_filename_asdict (s : Submission) :
    pop_filename (Submission.asdict s) =
      some (s.filename,
        [("team", FieldVal.str s.team), ("crop", FieldVal.str s.crop),
         ("mask", FieldVal.arr s.mask)]) := rfl

theorem test_step_cons (net : List Img → List Score) (im : List Img)
    (f t c : String) (fs ts cs : List String) :
    (test_step net ⟨im, f :: fs, t :: ts, c :: cs⟩).2 =
      some [(f, [("team", FieldVal.str t), ("crop", FieldVal.str c),
        ("mask", FieldVal.arr (squeeze ((net im).map pixelArgmaxMap)))])] :=
  rfl

/-- C3: training_step is the sequential composition of the forward pass on
the float-cast image, the loss on the long-cast mask, and logging; the value
it returns is exactly loss_fn (net (float batch.image)) (long batch.mask),
and validation_step returns the same loss computed the same way. -/
theorem c3_steps_return_loss {L : Type} (loss_fn : List Score → List Mask → L)
    (net : List Img → List Score) (hasLogger : Bool)
    (s s' : ModelState L) (b : TrainBatch) (i j : ℕ) :
    (training_step loss_fn net hasLogger s b i).2.2
        = loss_fn (net (floatCast b.image)) (longCast b.mask)
      ∧ (validation_step loss_fn net hasLogger s' b j).2.2
        = loss_fn (net (floatCast b.image)) (longCast b.mask) :=
  ⟨rfl, rfl⟩

/-- C9: training_step, validation_step and test_step consume their batch
read-only: the batch object coming out of the call is the one that went
in.  (Every tensor operation the steps use — .float(), .long(), the forward
pass, argmax, squeeze, cpu, detach, numpy — allocates a new tensor or view
and writes nothing into the batch.) -/
theorem c9_batch_read_only {L : Type} (loss_fn : List Score → List Mask → L)
    (net : List Img → List Score) (hasLogger : Bool)
    (s s' : ModelState L) (b b' : TrainBatch) (tb : TestBatch) (i j : ℕ) :
    (training_step loss_fn net hasLogger s b i).2.1 = b
  ∧ (validation_step loss_fn net hasLogger s' b' j).2.1 = b'
  ∧ (test_step net tb).1 = tb := by
  refine ⟨rfl, rfl, ?_⟩
  rcases tb with ⟨im, fl, tm, cr⟩
  cases fl <;> cases tm <;> cases cr <;> rfl

theorem training_step_submission {L : Type}
    (loss_fn : List Score → List Mask → L) (net : List Img → List Score)
    (hasLogger : Bool) (s : ModelState L) (b : TrainBatch) (i : ℕ) :
    (training_step loss_fn net hasLogger s b i).1.submission = s.submission := by
  cases hasLogger <;> rfl

theorem validation_step_submission {L : Type}
    (loss_fn : List Score → List Mask → L) (net : List Img → List Score)
    (hasLogger : Bool) (s : ModelState L) (b : TrainBatch) (i : ℕ) :
    (validation_step loss_fn net hasLogger s b i).1.submission = s.submission := by
  cases hasLogger <;> rfl

theorem runFit_submission {L : Type} (loss_fn : List Score → List Mask → L)
    (net : List Img → List Score) (hasLogger : Bool) :
    ∀ (steps : List FitStep) (s : ModelState L),
      (runFit loss_fn net hasLogger s steps).submission = s.submission := by
  intro steps
  induction steps with
  | nil => intro s; rfl
  | cons st rest ih =>
    intro s
    cases st with
    | train b i =>
      rw [runFit, ih, training_step_submission]
    | val b i =>
      rw [runFit, ih, validation_step_submission]

/-- C10: self.submission is None from construction on, training_step and
validation_step leave it unchanged (so it stays None along any run of
training / validation steps from the initial state), and test_epoch_end is
the one writer, storing the collated outputs. -/
theorem c10_submission_lifecycle {L : Type}
    (loss_fn : List Score → List Mask → L) (net : List Img → List Score)
    (hasLogger : Bool) :
    (initState L).submission = none
  ∧ (∀ (s : ModelState L) (b : TrainBatch) (i : ℕ),
      (training_step loss_fn net hasLogger s b i).1.submission = s.submission)
  ∧ (∀ (s : ModelState L) (b : TrainBatch) (i : ℕ),
      (validation_step loss_fn net hasLogger s b i).1.submission = s.submission)
  ∧ (∀ (s : ModelState L) (outs : List SubmissionMap),
      (test_epoch_end s outs).submission = some (dictChainMap outs))
  ∧ (∀ steps : List FitStep,
      (runFit loss_fn net hasLogger (initState L) steps).submission = none) :=
  ⟨rfl,
   fun s b i => training_step_submission loss_fn net hasLogger s b i,
   fun s b i => validation_step_submission loss_fn net hasLogger s b i,
   fun _ _ => rfl,
   fun steps => runFit_submission loss_fn net hasLogger steps (initState L)⟩

/-- C4: test_step returns a dictionary with exactly one key, the first
element of the batch's filename list; only the first entries of the
filename, team and crop lists (together with the image tensor) determine
the result, so any batch agreeing with the given one on those is mapped to
the same dictionary — test batches are effectively assumed to have one
sample. -/
theorem c4_single_key_from_first_sample (net : List Img → List Score)
    (b : TestBatch) (f t c : String)
    (hf : b.filename.head? = some f) (ht : b.team.head? = some t)
    (hc : b.crop.head? = some c) :
    (∃ rec, (test_step net b).2 = some [(f, rec)])
  ∧ ∀ b' : TestBatch, b'.image = b.image → b'.filename.head? = some f →
      b'.team.head? = some t → b'.crop.head? = some c →
      (test_step net b').2 = (test_step net b).2 := by
  rcases b with ⟨im, fl, tm, cr⟩
  cases fl with
  | nil => simp at hf
  | cons f0 fs =>
  cases tm with
  | nil => simp at ht
  | cons t0 ts =>
  cases cr with
  | nil => simp at hc
  | cons c0 cs =>
  simp only [List.head?_cons, Option.some.injEq] at hf ht hc
  subst hf ht hc
  constructor
  · exact ⟨_, test_step_cons net im _ _ _ fs ts cs⟩
  · intro b' him hf' ht' hc'
    rcases b' with ⟨im', fl', tm', cr'⟩
    cases fl' with
    | nil => simp at hf'
    | cons f0' fs' =>
    cases tm' with
    | nil => simp at ht'
    | cons t0' ts' =>
    cases cr' with
    | nil => simp at hc'
    | cons c0' cs' =>
    simp only [List.head?_cons, Option.some.injEq] at hf' ht' hc'
    subst hf' ht' hc'
    simp only at him
    subst him
    rw [test_step_cons, test_step_cons]

/-- Witness for C4 at a concrete two-sample test batch. -/
theorem c4_witness :
    (([("a", "zz")].map Prod.fst).head? = some "a")
  ∧ ((⟨[[[0]]], ["a", "zz"], ["t", "q"], ["c", "r"]⟩ : TestBatch).filename.head?
      = some "a")
  ∧ ((∃ rec, (test_step (fun imgs => imgs.map fun _ => [[1, 2]])
        (⟨[[[0]]], ["a", "zz"], ["t", "q"], ["c", "r"]⟩ : TestBatch)).2
          = some [("a", rec)])
    ∧ ∀ b' : TestBatch,
        b'.image = (⟨[[[0]]], ["a", "zz"], ["t", "q"], ["c", "r"]⟩ : TestBatch).image →
        b'.filename.head? = some "a" → b'.team.head? = some "t" →
        b'.crop.head? = some "c" →
        (test_step (fun imgs => imgs.map fun _ => [[1, 2]]) b').2
          = (test_step (fun imgs => imgs.map fun _ => [[1, 2]])
              (⟨[[[0]]], ["a", "zz"], ["t", "q"], ["c", "r"]⟩ : TestBatch)).2) :=
  ⟨rfl, rfl,
   c4_single_key_from_first_sample (fun imgs => imgs.map fun _ => [[1, 2]])
     ⟨[[[0]]], ["a", "zz"], ["t", "q"], ["c", "r"]⟩ "a" "t" "c" rfl rfl rfl⟩

/-- C2 counterexample: on a concrete test batch, the record stored as the
value of the returned dictionary does not contain a "filename" field — the
claim that the record consists of the filename, the team, the crop and the
predicted mask is false of the code, which pops the filename out of the
record to use it as the key. -/
theorem c2_counterexample :
    ∃ rec, (test_step (fun imgs => imgs.map fun _ => [[1, 2]])
        (⟨[[[0]]], ["f1"], ["t1"], ["c1"]⟩ : TestBatch)).2 = some [("f1", rec)]
      ∧ ("filename" : String) ∉ rec.map Prod.fst := by
  refine ⟨[("team", FieldVal.str "t1"), ("crop", FieldVal.str "c1"),
           ("mask", FieldVal.arr (MaskData.one [1]))], rfl, ?_⟩
  decide

/-- C2 (amended): the submission dictionary produced by test_step maps the
sample's filename to a record holding the team, the crop and the predicted
mask — the filename itself is popped out of the record and serves as the
key — with the predicted mask equal to the per-pixel argmax over the class
dimension of the network output for the batch's single sample. -/
theorem c2_submission_record (net : List Img → List Score) (b : TestBatch)
    (f t c : String) (m : Mask)
    (hf : b.filename.head? = some f) (ht : b.team.head? = some t)
    (hc : b.crop.head? = some c)
    (hm : (net b.image).map pixelArgmaxMap = [m]) :
    (test_step net b).2 =
      some [(f, [("team", FieldVal.str t), ("crop", FieldVal.str c),
                 ("mask", FieldVal.arr (MaskData.one m))])] := by
  rcases b with ⟨im, fl, tm, cr⟩
  cases fl with
  | nil => simp at hf
  | cons f0 fs =>
  cases tm with
  | nil => simp at ht
  | cons t0 ts =>
  cases cr with
  | nil => simp at hc
  | cons c0 cs =>
  simp only [List.head?_cons, Option.some.injEq] at hf ht hc
  subst hf ht hc
  rw [test_step_cons]
  simp only at hm
  rw [hm]
  rfl

/-- Witness for C2 (amended) at a concrete single-sample test batch. -/
theorem c2_witness :
    ((⟨[[[0]]], ["f1"], ["t1"], ["c1"]⟩ : TestBatch).filename.head? = some "f1")
  ∧ (((fun imgs : List Img => imgs.map fun _ => ([[1, 2]] : Score)) [[[0]]]).map
        pixelArgmaxMap = [[1]])
  ∧ ((test_step (fun imgs => imgs.map fun _ => [[1, 2]])
        (⟨[[[0]]], ["f1"], ["t1"], ["c1"]⟩ : TestBatch)).2 =
      some [("f1", [("team", FieldVal.str "t1"), ("crop", FieldVal.str "c1"),
                    ("mask", FieldVal.arr (MaskData.one [1]))])]) :=
  ⟨rfl, rfl,
   c2_submission_record (fun imgs => imgs.map fun _ => [[1, 2]])
     ⟨[[[0]]], ["f1"], ["t1"], ["c1"]⟩ "f1" "t1" "c1" [1] rfl rfl rfl rfl⟩

theorem lookup_append_or {α β : Type} [BEq α] (l1 l2 : List (α × β)) (k : α) :
    ((l1 ++ l2).lookup k) = (l1.lookup k).or (l2.lookup k) := by
  induction l1 with
  | nil => simp
  | cons p t ih =>
    rcases p with ⟨a, b⟩
    simp only [List.cons_append, List.lookup_cons]
    cases h : k == a
    · simpa [h] using ih
    · simp [h]

theorem any_key_eq_lookup_isSome (acc : SubmissionMap) (k : String) :
    (acc.any fun p => p.1 == k) = (acc.lookup k).isSome := by
  induction acc with
  | nil => rfl
  | cons p t ih =>
    rcases p with ⟨a, v⟩
    by_cases hk : k = a
    · subst hk; simp [List.lookup_cons]
    · have h1 : (a == k) = false := beq_eq_false_iff_ne.mpr (Ne.symm hk)
      have h2 : (k == a) = false := beq_eq_false_iff_ne.mpr hk
      simp [List.lookup_cons, h1, h2, ih]

theorem mem_keys_iff_lookup_isSome (l : SubmissionMap) (k : String) :
    k ∈ l.map Prod.fst ↔ (l.lookup k).isSome := by
  induction l with
  | nil => simp
  | cons p t ih =>
    rcases p with ⟨a, v⟩
    by_cases hk : k = a
    · subst hk; simp [List.lookup_cons]
    · have h2 : (k == a) = false := beq_eq_false_iff_ne.mpr hk
      simp [List.lookup_cons, h2, hk, ih]

theorem lookup_foldl_chainMapInsert (m : SubmissionMap) :
    ∀ (acc : SubmissionMap) (k : String),
      ((m.foldl chainMapInsert acc).lookup k)
        = (acc.lookup k).or (m.lookup k) := by
  induction m with
  | nil => intro acc k; simp
  | cons kv m' ih =>
    intro acc k
    rcases kv with ⟨a, v⟩
    simp only [List.foldl_cons]
    rw [ih]
    unfold chainMapInsert
    by_cases hmem : (acc.any fun p => p.1 == a) = true
    · rw [if_pos hmem]
      rw [any_key_eq_lookup_isSome] at hmem
      by_cases hk : k = a
      · subst hk
        rcases Option.isSome_iff_exists.mp hmem with ⟨v0, hv0⟩
        rw [hv0]
        simp [List.lookup_cons]
      · have h2 : (k == a) = false := beq_eq_false_iff_ne.mpr hk
        simp [List.lookup_cons, h2]
    · rw [if_neg hmem]
      rw [lookup_append_or, Option.or_assoc]
      congr 1
      by_cases hk : k = a
      · subst hk; simp [List.lookup_cons]
      · have h2 : (k == a) = false := beq_eq_false_iff_ne.mpr hk
        simp [List.lookup_cons, h2]

theorem lookup_foldl_outputs (outs : List SubmissionMap) :
    ∀ (acc : SubmissionMap) (k : String),
      ((outs.foldl (fun acc m => m.foldl chainMapInsert acc) acc).lookup k)
        = (acc.lookup k).or (outs.findSome? fun m => m.lookup k) := by
  induction outs with
  | nil => intro acc k; simp
  | cons m outs' ih =>
    intro acc k
    simp only [List.foldl_cons]
    rw [ih, lookup_foldl_chainMapInsert, Option.or_assoc]
    congr 1
    rw [List.findSome?_cons]
    cases h : m.lookup k <;> simp [h]

theorem findSome?_isSome_iff {α β : Type} (f : α → Option β) (l : List α) :
    (l.findSome? f).isSome ↔ ∃ a ∈ l, (f a).isSome := by
  induction l with
  | nil => simp
  | cons a t ih =>
    rw [List.findSome?_cons]
    cases h : f a <;> simp [h, ih]

/-- C5: the collation dict(ChainMap(*outputs)) in test_epoch_end resolves
every filename to the record of the earliest output in the list containing
it: the lookup of a key in the collated dictionary is the first successful
lookup across the outputs in order, so when several outputs bind the same
filename the earliest record is kept and the later ones are silently
discarded. -/
theorem c5_earliest_output_wins (outputs : List SubmissionMap) (k : String) :
    ((dictChainMap outputs).lookup k
        = outputs.findSome? (fun m => m.lookup k))
  ∧ ∀ (l1 l2 : List SubmissionMap) (o : SubmissionMap) (v : SubRec),
      outputs = l1 ++ o :: l2 → (∀ m ∈ l1, m.lookup k = none) →
      o.lookup k = some v → (dictChainMap outputs).lookup k = some v := by
  have hmain : (dictChainMap outputs).lookup k
      = outputs.findSome? fun m => m.lookup k := by
    unfold dictChainMap
    rw [lookup_foldl_outputs]
    simp
  refine ⟨hmain, ?_⟩
  intro l1 l2 o v heq hnone hsome
  subst heq
  rw [hmain]
  clear hmain
  induction l1 with
  | nil => simp [List.findSome?_cons, hsome]
  | cons m t ih =>
    rw [List.cons_append, List.findSome?_cons, hnone m (List.mem_cons_self m t)]
    exact ih fun m' hm' => hnone m' (List.mem_cons_of_mem m hm')

/-- Witness for C5 on a concrete pair of outputs sharing the key "a". -/
theorem c5_witness :
    ([[("a", [("x", FieldVal.str "1")])], [("a", [("x", FieldVal.str "2")])]]
        = ([] : List SubmissionMap)
            ++ [("a", [("x", FieldVal.str "1")])] :: [[("a", [("x", FieldVal.str "2")])]])
  ∧ ((dictChainMap
        [[("a", [("x", FieldVal.str "1")])], [("a", [("x", FieldVal.str "2")])]]).lookup "a"
      = some [("x", FieldVal.str "1")]) :=
  ⟨rfl,
   (c5_earliest_output_wins
      [[("a", [("x", FieldVal.str "1")])], [("a", [("x", FieldVal.str "2")])]] "a").2
     [] [[("a", [("x", FieldVal.str "2")])]] [("a", [("x", FieldVal.str "1")])]
     [("x", FieldVal.str "1")] rfl (by simp) rfl⟩

theorem chainMapInsert_keys_nodup (acc : SubmissionMap) (kv : String × SubRec)
    (h : (acc.map Prod.fst).Nodup) :
    ((chainMapInsert acc kv).map Prod.fst).Nodup := by
  unfold chainMapInsert
  by_cases hmem : (acc.any fun p => p.1 == kv.1) = true
  · rwa [if_pos hmem]
  · rw [if_neg hmem]
    rw [List.map_append, List.nodup_append]
    refine ⟨h, List.nodup_singleton _, ?_⟩
    simp only [List.map_cons, List.map_nil]
    rw [List.disjoint_singleton]
    intro hk
    apply hmem
    rw [any_key_eq_lookup_isSome]
    exact (mem_keys_iff_lookup_isSome acc kv.1).mp hk

theorem foldl_chainMapInsert_keys_nodup (m : SubmissionMap) :
    ∀ acc : SubmissionMap, (acc.map Prod.fst).Nodup →
      ((m.foldl chainMapInsert acc).map Prod.fst).Nodup := by
  induction m with
  | nil => intro acc h; exact h
  | cons kv m' ih => intro acc h; exact ih _ (chainMapInsert_keys_nodup acc kv h)

theorem dictChainMap_keys_nodup (outs : List SubmissionMap) :
    ((dictChainMap outs).map Prod.fst).Nodup := by
  unfold dictChainMap
  suffices h : ∀ acc : SubmissionMap, (acc.map Prod.fst).Nodup →
      ((outs.foldl (fun acc m => m.foldl chainMapInsert acc) acc).map
        Prod.fst).Nodup by
    exact h [] (by simp)
  induction outs with
  | nil => intro acc h; exact h
  | cons m outs' ih =>
    intro acc h
    exact ih _ (foldl_chainMapInsert_keys_nodup m acc h)

theorem lookup_singleton_isSome (k0 f : String) (r : SubRec) :
    ([(k0, r)].lookup f).isSome ↔ f = k0 := by
  by_cases h : f = k0
  · subst h; simp [List.lookup_cons]
  · have h2 : (f == k0) = false := beq_eq_false_iff_ne.mpr h
    simp [List.lookup_cons, h2, h]

theorem test_step_eq (net : List Img → List Score) (b : TestBatch)
    (h1 : b.filename ≠ []) (h2 : b.team ≠ []) (h3 : b.crop ≠ []) :
    (test_step net b).2 = some [(b.filename.headI,
      [("team", FieldVal.str b.team.headI), ("crop", FieldVal.str b.crop.headI),
       ("mask", FieldVal.arr (squeeze ((net b.image).map pixelArgmaxMap)))])] := by
  rcases b with ⟨im, fl, tm, cr⟩
  cases fl with
  | nil => simp at h1
  | cons f fs =>
  cases tm with
  | nil => simp at h2
  | cons t ts =>
  cases cr with
  | nil => simp at h3
  | cons c cs =>
  exact test_step_cons net im f t c fs ts cs

theorem mapM_test_step_eq (net : List Img → List Score)
    (batches : List TestBatch)
    (h : ∀ b ∈ batches, b.filename ≠ [] ∧ b.team ≠ [] ∧ b.crop ≠ []) :
    batches.mapM (fun b => (test_step net b).2)
      = some (batches.map fun b => [(b.filename.headI,
          [("team", FieldVal.str b.team.headI),
           ("crop", FieldVal.str b.crop.headI),
           ("mask", FieldVal.arr
             (squeeze ((net b.image).map pixelArgmaxMap)))])]) := by
  induction batches with
  | nil => rfl
  | cons b bs ih =>
    have hb := h b (List.mem_cons_self b bs)
    rw [List.mapM_cons, test_step_eq net b hb.1 hb.2.1 hb.2.2,
      ih fun x hx => h x (List.mem_cons_of_mem b hx)]
    rfl

/-- C1 (amended): a test pass on batches with non-empty metadata succeeds
and stores in self.submission a mapping whose keys are exactly the distinct
first filenames of the test batches, each occurring once; since test_step
uses only index 0 of the metadata, filenames of any further samples in a
batch do not appear. -/
theorem c1_one_entry_per_first_filename {L : Type}
    (net : List Img → List Score) (s : ModelState L)
    (batches : List TestBatch)
    (h : ∀ b ∈ batches, b.filename ≠ [] ∧ b.team ≠ [] ∧ b.crop ≠ []) :
    ∃ s', testPass net s batches = some s'
      ∧ ∃ sub, s'.submission = some sub
        ∧ (sub.map Prod.fst).Nodup
        ∧ ∀ f, f ∈ sub.map Prod.fst
            ↔ f ∈ batches.map fun b => b.filename.headI := by
  unfold testPass
  rw [mapM_test_step_eq net batches h]
  refine ⟨_, rfl, _, rfl, dictChainMap_keys_nodup _, ?_⟩
  intro f
  rw [mem_keys_iff_lookup_isSome]
  unfold dictChainMap
  rw [lookup_foldl_outputs]
  simp only [List.lookup_nil, Option.none_or]
  rw [findSome?_isSome_iff]
  constructor
  · rintro ⟨m, hm, hsome⟩
    rcases List.mem_map.mp hm with ⟨b, hb, rfl⟩
    rw [lookup_singleton_isSome] at hsome
    exact List.mem_map.mpr ⟨b, hb, hsome.symm⟩
  · intro hf
    rcases List.mem_map.mp hf with ⟨b, hb, rfl⟩
    refine ⟨_, List.mem_map.mpr ⟨b, hb, rfl⟩, ?_⟩
    rw [lookup_singleton_isSome]

/-- Witness for C1 (amended): two single-sample batches sharing the first
filename "a" collate to a single entry. -/
theorem c1_witness :
    (∀ b ∈ [(⟨[[[0]]], ["a"], ["t"], ["c"]⟩ : TestBatch),
            ⟨[[[0]]], ["a"], ["u"], ["d"]⟩],
        b.filename ≠ [] ∧ b.team ≠ [] ∧ b.crop ≠ [])
  ∧ ∃ s', testPass (fun imgs : List Img => imgs.map fun _ => ([[1, 2]] : Score))
        (initState ℚ)
        [⟨[[[0]]], ["a"], ["t"], ["c"]⟩, ⟨[[[0]]], ["a"], ["u"], ["d"]⟩]
        = some s'
      ∧ ∃ sub, s'.submission = some sub
        ∧ (sub.map Prod.fst).Nodup
        ∧ ∀ f, f ∈ sub.map Prod.fst
            ↔ f ∈ ([⟨[[[0]]], ["a"], ["t"], ["c"]⟩,
                    ⟨[[[0]]], ["a"], ["u"], ["d"]⟩] : List TestBatch).map
                fun b => b.filename.headI :=
  ⟨by decide,
   c1_one_entry_per_first_filename
     (fun imgs : List Img => imgs.map fun _ => ([[1, 2]] : Score))
     (initState ℚ)
     [⟨[[[0]]], ["a"], ["t"], ["c"]⟩, ⟨[[[0]]], ["a"], ["u"], ["d"]⟩]
     (by decide)⟩

/-- C1 counterexample: a two-sample test batch whose second filename "b"
occurs in the test batches but is not a key of the stored submission — the
claim that every filename appearing in the test batches becomes a key is
false of the code, which reads only the first filename of each batch. -/
theorem c1_counterexample :
    ("b" : String) ∈
      (⟨[[[0]], [[0]]], ["a", "b"], ["t", "u"], ["c", "d"]⟩ : TestBatch).filename
  ∧ ∃ s' : ModelState ℚ,
      testPass (fun imgs : List Img => imgs.map fun _ => ([[1, 2]] : Score))
        (initState ℚ)
        [⟨[[[0]], [[0]]], ["a", "b"], ["t", "u"], ["c", "d"]⟩] = some s'
      ∧ ∃ sub, s'.submission = some sub ∧ ("b" : String) ∉ sub.map Prod.fst := by
  refine ⟨by decide,
    ⟨⟨[], [], some [("a", [("team", FieldVal.str "t"), ("crop", FieldVal.str "c"),
        ("mask", FieldVal.arr (MaskData.many [[1], [1]]))])]⟩, rfl,
     _, rfl, by decide⟩⟩

theorem classScore_bounds (pred target : Mask) (c : ℕ) :
    0 ≤ classScore pred target c ∧ classScore pred target c ≤ 1 := by
  unfold classScore
  by_cases hd : countTP pred target c + countFP pred target c
      + countFN pred target c = 0
  · simp [hd]
  · simp only [hd, if_false]
    constructor
    · exact div_nonneg (Nat.cast_nonneg _) (Nat.cast_nonneg _)
    · rw [div_le_one (by exact_mod_cast Nat.pos_of_ne_zero hd)]
      exact_mod_cast (Nat.le_add_right _ _).trans (Nat.le_add_right _ _)

theorem iou_bounds (pred target : Mask)
    (h2 : 2 ≤ numClassesOf pred target) :
    0 ≤ iou pred target 0 ∧ iou pred target 0 ≤ 1 := by
  simp only [iou]
  have hmem : 1 ∈ (List.range (numClassesOf pred target)).filter
      (fun c => c ≠ 0) := by
    rw [List.mem_filter]
    exact ⟨List.mem_range.mpr (lt_of_lt_of_le one_lt_two h2), by decide⟩
  have hlen : 0 < ((List.range (numClassesOf pred target)).filter
      (fun c => c ≠ 0)).length :=
    List.length_pos.mpr (List.ne_nil_of_mem hmem)
  have hsum0 : 0 ≤ (((List.range (numClassesOf pred target)).filter
      (fun c => c ≠ 0)).map (classScore pred target)).sum := by
    apply List.sum_nonneg
    intro x hx
    rcases List.mem_map.mp hx with ⟨c, _, rfl⟩
    exact (classScore_bounds pred target c).1
  have hsum1 : (((List.range (numClassesOf pred target)).filter
        (fun c => c ≠ 0)).map (classScore pred target)).sum
      ≤ ((((List.range (numClassesOf pred target)).filter
        (fun c => c ≠ 0)).length : ℚ)) := by
    have hcard := List.sum_le_card_nsmul
      ((((List.range (numClassesOf pred target)).filter
        (fun c => c ≠ 0))).map (classScore pred target)) 1 ?_
    · rw [List.length_map] at hcard
      simpa [nsmul_eq_mul] using hcard
    · intro x hx
      rcases List.mem_map.mp hx with ⟨c, _, rfl⟩
      exact (classScore_bounds pred target c).2
  exact ⟨div_nonneg hsum0 (Nat.cast_nonneg _),
    by rw [div_le_one (by exact_mod_cast hlen)]; exact hsum1⟩

/-- C6: the iou value logged by validation_step is the arithmetic mean over
the batch's samples of the per-sample IoU of the argmax prediction against
the ground-truth mask with ignore_index 0; each per-sample IoU lies in
[0, 1] and so does the logged mean.  The hypotheses exclude the cases where
the Python computation would produce NaN: an empty output batch (division
by len(out) = 0) and a sample whose prediction and target are entirely
class 0 (mean of an empty class list inside the metric). -/
theorem c6_iou_in_unit_interval {L : Type}
    (loss_fn : List Score → List Mask → L) (net : List Img → List Score)
    (hasLogger : Bool) (s : ModelState L) (b : TrainBatch) (i : ℕ)
    (hpos : 0 < (net (floatCast b.image)).length)
    (hcls : ∀ p ∈ b.mask.zip (net (floatCast b.image)),
        2 ≤ numClassesOf (pixelArgmaxMap p.2) p.1) :
    (0 ≤ valIouScore net b ∧ valIouScore net b ≤ 1)
  ∧ (∀ p ∈ b.mask.zip (net (floatCast b.image)),
        0 ≤ iou (pixelArgmaxMap p.2) p.1 0
      ∧ iou (pixelArgmaxMap p.2) p.1 0 ≤ 1)
  ∧ ("iou", LogEntry.ofQ (valIouScore net b))
      ∈ (validation_step loss_fn net hasLogger s b i).1.logged := by
  have hterms : ∀ p ∈ b.mask.zip (net (floatCast b.image)),
      0 ≤ iou (pixelArgmaxMap p.2) p.1 0
    ∧ iou (pixelArgmaxMap p.2) p.1 0 ≤ 1 :=
    fun p hp => iou_bounds (pixelArgmaxMap p.2) p.1 (hcls p hp)
  have hsum0 : 0 ≤ ((b.mask.zip (net (floatCast b.image))).map
      (fun p => iou (pixelArgmaxMap p.2) p.1 0)).sum := by
    apply List.sum_nonneg
    intro x hx
    rcases List.mem_map.mp hx with ⟨p, hp, rfl⟩
    exact (hterms p hp).1
  have hsum1 : ((b.mask.zip (net (floatCast b.image))).map
        (fun p => iou (pixelArgmaxMap p.2) p.1 0)).sum
      ≤ (((net (floatCast b.image)).length : ℚ)) := by
    have hcard := List.sum_le_card_nsmul
      ((b.mask.zip (net (floatCast b.image))).map
        (fun p => iou (pixelArgmaxMap p.2) p.1 0)) 1 ?_
    · rw [List.length_map] at hcard
      have hzip : ((b.mask.zip (net (floatCast b.image))).length : ℚ)
          ≤ (((net (floatCast b.image)).length : ℚ)) := by
        rw [List.length_zip]
        exact_mod_cast min_le_right _ _
      calc ((b.mask.zip (net (floatCast b.image))).map
            (fun p => iou (pixelArgmaxMap p.2) p.1 0)).sum
          ≤ ((b.mask.zip (net (floatCast b.image))).length : ℚ) := by
            simpa [nsmul_eq_mul] using hcard
        _ ≤ _ := hzip
    · intro x hx
      rcases List.mem_map.mp hx with ⟨p, hp, rfl⟩
      exact (hterms p hp).2
  refine ⟨⟨div_nonneg hsum0 (Nat.cast_nonneg _), ?_⟩, hterms, ?_⟩
  · rw [valIouScore, div_le_one (by exact_mod_cast hpos)]
    exact hsum1
  · cases hasLogger <;> simp [validation_step]

/-- Witness for C6 at a concrete one-sample batch with one labelled pixel. -/
theorem c6_witness :
    (0 < ((fun imgs : List Img => imgs.map fun _ => ([[1, 2]] : Score))
        (floatCast (⟨[[[0]]], [[1]]⟩ : TrainBatch).image)).length)
  ∧ (∀ p ∈ (⟨[[[0]]], [[1]]⟩ : TrainBatch).mask.zip
        ((fun imgs : List Img => imgs.map fun _ => ([[1, 2]] : Score))
          (floatCast (⟨[[[0]]], [[1]]⟩ : TrainBatch).image)),
      2 ≤ numClassesOf (pixelArgmaxMap p.2) p.1)
  ∧ ((0 ≤ valIouScore
        (fun imgs : List Img => imgs.map fun _ => ([[1, 2]] : Score))
        ⟨[[[0]]], [[1]]⟩
      ∧ valIouScore
        (fun imgs : List Img => imgs.map fun _ => ([[1, 2]] : Score))
        ⟨[[[0]]], [[1]]⟩ ≤ 1)
    ∧ (∀ p ∈ (⟨[[[0]]], [[1]]⟩ : TrainBatch).mask.zip
          ((fun imgs : List Img => imgs.map fun _ => ([[1, 2]] : Score))
            (floatCast (⟨[[[0]]], [[1]]⟩ : TrainBatch).image)),
          0 ≤ iou (pixelArgmaxMap p.2) p.1 0
        ∧ iou (pixelArgmaxMap p.2) p.1 0 ≤ 1)
    ∧ ("iou", LogEntry.ofQ (valIouScore
          (fun imgs : List Img => imgs.map fun _ => ([[1, 2]] : Score))
          ⟨[[[0]]], [[1]]⟩))
        ∈ (validation_step (fun _ _ => (0 : ℚ))
            (fun imgs : List Img => imgs.map fun _ => ([[1, 2]] : Score))
            false (initState ℚ) ⟨[[[0]]], [[1]]⟩ 0).1.logged) :=
  ⟨by decide, by decide,
   c6_iou_in_unit_interval (fun _ _ => (0 : ℚ))
     (fun imgs : List Img => imgs.map fun _ => ([[1, 2]] : Score))
     false (initState ℚ) ⟨[[[0]]], [[1]]⟩ 0 (by decide) (by decide)⟩

theorem ceTerm_nonneg (scores : List ℚ) (t : ℕ) (ht : t < scores.length) :
    0 ≤ ceTerm scores t := by
  unfold ceTerm
  rw [sub_nonneg]
  have hmem : scores.getD t 0 ∈ scores := by
    rw [List.getD_eq_getElem scores 0 ht]
    exact List.getElem_mem ht
  have hexp : Real.exp ((scores.getD t 0 : ℚ) : ℝ)
      ≤ ((scores.map fun x : ℚ => Real.exp (x : ℝ)).sum) := by
    apply List.single_le_sum
    · intro x hx
      rcases List.mem_map.mp hx with ⟨q, _, rfl⟩
      exact le_of_lt (Real.exp_pos _)
    · exact List.mem_map_of_mem (fun x : ℚ => Real.exp (x : ℝ)) hmem
  have hpossum : (0 : ℝ) < ((scores.map fun x : ℚ => Real.exp (x : ℝ)).sum) :=
    lt_of_lt_of_le (Real.exp_pos _) hexp
  rw [Real.le_log_iff_exp_le hpossum]
  exact hexp

theorem crossEntropyLoss_nonneg (out : List Score) (mask : List Mask)
    (hvalid : ∀ p ∈ cePositions out mask, p.2 < p.1.length) :
    0 ≤ crossEntropyLoss out mask := by
  unfold crossEntropyLoss
  apply div_nonneg
  · apply List.sum_nonneg
    intro x hx
    rcases List.mem_map.mp hx with ⟨p, hp, rfl⟩
    exact ceTerm_nonneg p.1 p.2 (hvalid p hp)
  · exact Nat.cast_nonneg _

/-- C7: with the default nn.CrossEntropyLoss as the loss function, the loss
value computed and returned by training_step and by validation_step on a
well-formed batch (at least one sample-pixel position, every mask entry a
valid class index) is non-negative; in the exact real-valued model of the
loss every value is a (finite) real number, so finiteness is inherent.  The
position-count hypothesis excludes the empty mean, for which the
floating-point computation would return NaN. -/
theorem c7_loss_nonneg (net : List Img → List Score) (hasLogger : Bool)
    (s s' : ModelState ℝ) (b : TrainBatch) (i j : ℕ)
    (hpos : 0 < (cePositions (net (floatCast b.image)) (longCast b.mask)).length)
    (hvalid : ∀ p ∈ cePositions (net (floatCast b.image)) (longCast b.mask),
        p.2 < p.1.length) :
    0 ≤ (training_step crossEntropyLoss net hasLogger s b i).2.2
  ∧ 0 ≤ (validation_step crossEntropyLoss net hasLogger s' b j).2.2 :=
  ⟨crossEntropyLoss_nonneg _ _ hvalid, crossEntropyLoss_nonneg _ _ hvalid⟩

/-- Witness for C7 at a concrete one-sample, one-pixel, two-class batch. -/
theorem c7_witness :
    (0 < (cePositions
        ((fun imgs : List Img => imgs.map fun _ => ([[1, 2]] : Score))
          (floatCast (⟨[[[0]]], [[1]]⟩ : TrainBatch).image))
        (longCast (⟨[[[0]]], [[1]]⟩ : TrainBatch).mask)).length)
  ∧ (∀ p ∈ cePositions
        ((fun imgs : List Img => imgs.map fun _ => ([[1, 2]] : Score))
          (floatCast (⟨[[[0]]], [[1]]⟩ : TrainBatch).image))
        (longCast (⟨[[[0]]], [[1]]⟩ : TrainBatch).mask), p.2 < p.1.length)
  ∧ (0 ≤ (training_step crossEntropyLoss
        (fun imgs : List Img => imgs.map fun _ => ([[1, 2]] : Score))
        false (initState ℝ) ⟨[[[0]]], [[1]]⟩ 0).2.2
    ∧ 0 ≤ (validation_step crossEntropyLoss
        (fun imgs : List Img => imgs.map fun _ => ([[1, 2]] : Score))
        false (initState ℝ) ⟨[[[0]]], [[1]]⟩ 0).2.2) :=
  ⟨by decide, by decide,
   c7_loss_nonneg (fun imgs : List Img => imgs.map fun _ => ([[1, 2]] : Score))
     false (initState ℝ) (initState ℝ) ⟨[[[0]]], [[1]]⟩ 0 0
     (by decide) (by decide)⟩

theorem conv2dShape_keep (cin cout n h w : ℕ) (hh : 1 ≤ h) (hw : 1 ≤ w) :
    conv2dShape cin cout 3 1 ⟨n, cin, h, w⟩ = some ⟨n, cout, h, w⟩ := by
  show (if cin = cin ∧ 1 ≤ h ∧ 1 ≤ w ∧ 3 ≤ h + 2 * 1 ∧ 3 ≤ w + 2 * 1 then
      some (⟨n, cout, h + 2 * 1 + 1 - 3, w + 2 * 1 + 1 - 3⟩ : Shape4)
    else none) = some ⟨n, cout, h, w⟩
  rw [if_pos ⟨rfl, hh, hw, by omega, by omega⟩]
  have e1 : h + 2 * 1 + 1 - 3 = h := by omega
  have e2 : w + 2 * 1 + 1 - 3 = w := by omega
  rw [e1, e2]

theorem conv2dShape_onebyone (cin cout n h w : ℕ) (hh : 1 ≤ h) (hw : 1 ≤ w) :
    conv2dShape cin cout 1 0 ⟨n, cin, h, w⟩ = some ⟨n, cout, h, w⟩ := by
  show (if cin = cin ∧ 1 ≤ h ∧ 1 ≤ w ∧ 1 ≤ h + 2 * 0 ∧ 1 ≤ w + 2 * 0 then
      some (⟨n, cout, h + 2 * 0 + 1 - 1, w + 2 * 0 + 1 - 1⟩ : Shape4)
    else none) = some ⟨n, cout, h, w⟩
  rw [if_pos ⟨rfl, hh, hw, by omega, by omega⟩]
  have e1 : h + 2 * 0 + 1 - 1 = h := by omega
  have e2 : w + 2 * 0 + 1 - 1 = w := by omega
  rw [e1, e2]

theorem doubleConvShape_eq (cin cout n h w : ℕ) (hh : 1 ≤ h) (hw : 1 ≤ w) :
    doubleConvShape cin cout ⟨n, cin, h, w⟩ = some ⟨n, cout, h, w⟩ := by
  unfold doubleConvShape
  rw [conv2dShape_keep cin cout n h w hh hw]
  simp only [Option.some_bind]
  exact conv2dShape_keep cout cout n h w hh hw

theorem maxPool2Shape_eq (n c h w : ℕ) (hh : 2 ≤ h) (hw : 2 ≤ w) :
    maxPool2Shape ⟨n, c, h, w⟩ = some ⟨n, c, h / 2, w / 2⟩ := by
  show (if 2 ≤ h ∧ 2 ≤ w then some (⟨n, c, h / 2, w / 2⟩ : Shape4) else none)
    = some ⟨n, c, h / 2, w / 2⟩
  rw [if_pos ⟨hh, hw⟩]

theorem downShape_eq (f n h w : ℕ) (hh : 2 ≤ h) (hw : 2 ≤ w) :
    downShape f (2 * f) ⟨n, f, h, w⟩ = some ⟨n, 2 * f, h / 2, w / 2⟩ := by
  unfold downShape
  rw [maxPool2Shape_eq n f h w hh hw]
  simp only [Option.some_bind]
  exact doubleConvShape_eq f (2 * f) n (h / 2) (w / 2) (by omega) (by omega)

theorem upsampleShape_eq (cin n h w : ℕ) (hh : 1 ≤ h) (hw : 1 ≤ w) :
    upsampleShape cin ⟨n, cin, h, w⟩ = some ⟨n, cin / 2, 2 * h, 2 * w⟩ := by
  show (if cin = cin ∧ 1 ≤ h ∧ 1 ≤ w then
      some (⟨n, cin / 2, 2 * h, 2 * w⟩ : Shape4) else none)
    = some ⟨n, cin / 2, 2 * h, 2 * w⟩
  rw [if_pos ⟨rfl, hh, hw⟩]

theorem catChShape_eq (n c1 c2 h w : ℕ) :
    catChShape ⟨n, c1, h, w⟩ ⟨n, c2, h, w⟩ = some ⟨n, c1 + c2, h, w⟩ := by
  show (if n = n ∧ h = h ∧ w = w then
      some (⟨n, c1 + c2, h, w⟩ : Shape4) else none) = some ⟨n, c1 + c2, h, w⟩
  rw [if_pos ⟨rfl, rfl, rfl⟩]

theorem upShape_eq (f n h w h2 w2 : ℕ) (hh : 1 ≤ h) (hw : 1 ≤ w)
    (hh2 : 1 ≤ h2) (hw2 : 1 ≤ w2) :
    upShape (2 * f) f ⟨n, 2 * f, h, w⟩ ⟨n, f, h2, w2⟩
      = some ⟨n, f, h2, w2⟩ := by
  unfold upShape
  rw [upsampleShape_eq (2 * f) n h w hh hw]
  simp only [Option.some_bind]
  show (catChShape ⟨n, f, h2, w2⟩ ⟨n, 2 * f / 2, h2, w2⟩).bind
      (doubleConvShape (2 * f) f) = some ⟨n, f, h2, w2⟩
  rw [catChShape_eq n f (2 * f / 2) h2 w2]
  simp only [Option.some_bind]
  have hc : f + 2 * f / 2 = 2 * f := by omega
  rw [hc]
  exact doubleConvShape_eq (2 * f) f n h2 w2 hh2 hw2

theorem upPath_append (l1 l2 : List Shape4) :
    ∀ (f : ℕ) (cur : Shape4),
      upPath f cur (l1 ++ l2)
        = (upPath f cur l1).bind fun c =>
            upPath (f / 2 ^ l1.length) c l2 := by
  induction l1 with
  | nil =>
    intro f cur
    simp [upPath]
  | cons skip t ih =>
    intro f cur
    simp only [List.cons_append, upPath]
    cases h : upShape f (f / 2) cur skip with
    | none => simp
    | some nxt =>
      simp only [Option.some_bind, List.append_eq]
      rw [ih]
      have hpow : f / 2 / 2 ^ t.length = f / 2 ^ (t.length + 1) := by
        rw [Nat.div_div_eq_div_mul, pow_succ, Nat.mul_comm 2 (2 ^ t.length)]
      rw [List.length_cons, hpow]

theorem down_up_roundtrip (k : ℕ) :
    ∀ (f n h w : ℕ), 1 ≤ f → 2 ^ k ≤ h → 2 ^ k ≤ w →
      ∃ fin skips, downPath f k ⟨n, f, h, w⟩ = some (fin, skips)
        ∧ skips.length = k
        ∧ upPath (f * 2 ^ k) fin skips = some ⟨n, f, h, w⟩ := by
  induction k with
  | zero =>
    intro f n h w _ _ _
    exact ⟨⟨n, f, h, w⟩, [], rfl, rfl, rfl⟩
  | succ k ih =>
    intro f n h w hf hh hw
    rw [pow_succ] at hh hw
    have hp : 1 ≤ 2 ^ k := Nat.one_le_two_pow
    have hdown := downShape_eq f n h w (by omega) (by omega)
    obtain ⟨fin, skips, hdp, hlen, hup⟩ :=
      ih (2 * f) n (h / 2) (w / 2) (by omega) (by omega) (by omega)
    refine ⟨fin, skips ++ [⟨n, f, h, w⟩], ?_, ?_, ?_⟩
    · show (downShape f (2 * f) ⟨n, f, h, w⟩).bind _ = _
      rw [hdown]
      simp only [Option.some_bind]
      rw [hdp]
      rfl
    · simp [hlen]
    · have hfe : f * 2 ^ (k + 1) = 2 * f * 2 ^ k := by
        rw [pow_succ]; ring
      rw [hfe, upPath_append, hup]
      simp only [Option.some_bind]
      rw [hlen, Nat.mul_div_cancel _ (by positivity : (0 : ℕ) < 2 ^ k)]
      show (upShape (2 * f) (2 * f / 2) ⟨n, 2 * f, h / 2, w / 2⟩
          ⟨n, f, h, w⟩).bind _ = _
      have h2f : 2 * f / 2 = f := by omega
      rw [h2f, upShape_eq f n (h / 2) (w / 2) h w (by omega) (by omega)
        (by omega) (by omega)]
      rfl

/-- C8 (amended): for an input of shape (n, 3, H, W) — three channels, the
input-channel count the built UNet accepts — with H and W at least
2 ^ (num_layers - 1) so that every max-pool in the down path keeps a
positive spatial size, the forward pass of the module returns a tensor of
shape (n, num_classes, H, W). -/
theorem c8_forward_shape (num_classes num_layers features_start n h w : ℕ)
    (hL : 1 ≤ num_layers) (hfs : 1 ≤ features_start)
    (hh : 2 ^ (num_layers - 1) ≤ h) (hw : 2 ^ (num_layers - 1) ≤ w) :
    unetShape num_classes num_layers features_start ⟨n, 3, h, w⟩
      = some ⟨n, num_classes, h, w⟩ := by
  unfold unetShape
  have h1 : 1 ≤ h := le_trans Nat.one_le_two_pow hh
  have w1 : 1 ≤ w := le_trans Nat.one_le_two_pow hw
  rw [doubleConvShape_eq 3 features_start n h w h1 w1]
  simp only [Option.some_bind]
  obtain ⟨fin, skips, hdp, hlen, hup⟩ :=
    down_up_roundtrip (num_layers - 1) features_start n h w hfs hh hw
  rw [hdp]
  simp only [Option.some_bind]
  rw [hup]
  simp only [Option.some_bind]
  exact conv2dShape_onebyone features_start num_classes n h w h1 w1

/-- Witness for C8 (amended) at a concrete 2-layer UNet on an 8x8 input. -/
theorem c8_witness :
    (1 ≤ 2 ∧ 1 ≤ 4 ∧ 2 ^ (2 - 1) ≤ 8 ∧ 2 ^ (2 - 1) ≤ 8)
  ∧ unetShape 5 2 4 ⟨1, 3, 8, 8⟩ = some ⟨1, 5, 8, 8⟩ :=
  ⟨by decide,
   c8_forward_shape 5 2 4 1 8 8 (by decide) (by decide) (by decide) (by decide)⟩

/-- C8 counterexample: on a 4-channel input the first convolution of the
network raises (its declared input-channel count is 3), so the forward pass
does not return a tensor at all, falsifying the claim for an arbitrary
channel count. -/
theorem c8_counterexample :
    unetShape 2 2 4 ⟨1, 4, 8, 8⟩ ≠ some ⟨1, 2, 8, 8⟩ := by decide

end AcreCascade
